import Mathlib

/-!
Verification of the transaction-reuse and context-propagation core of the
dbx library (files transaction.go, context.go, options.go, database.go).

The embedding models:
  * `TxOptions` / `options` / `OptionSetter` / `newOptions` — options.go.
    The Go `Option` type is `func(*options)`; the only option values the
    package exports are the three constructors `WithIsolationLevel`,
    `WithReadOnly` and `WithNewTransaction`, so the function space is
    defunctionalized into the inductive `OptionSetter`.
  * `GoContext` — the shapes of Go `context.Context` values relevant to the
    library: a root context, a context produced by
    `context.WithValue(parent, ctxKey{}, dbCtx)` (`WithContext`), and a
    `defaultContext` (the sole implementation of the dbx `Context`
    interface: a parent context plus an `Executor`).
  * `Executor` — either the database connection pool (`*sql.DB` /
    `defaultDatabase`, which does not implement `Transactor`) or a live
    transaction handle (`*sql.Tx`, identified by a numeric id, which does).
  * `transactionWithInternal` — transaction.go lines 85-137, instrumented
    with an explicit event trace (`World`) recording every `BeginTx`,
    operation invocation, `Commit` and `Rollback` call, and parameterized
    by an environment `Env` choosing the outcome of each external call.
    The beginner is modelled as the default `Database`, whose
    `Context(ctx)` method produces a carrier whose executor is the pool.
    Go's `*new(T)` (zero value) is modelled by `default : T` from an
    `Inhabited` instance; Go's `(T, error)` return is `T × Option Nat`
    with abstract numeric error identities.
-/

namespace Dbx

/-- sql.TxOptions: isolation level (Go int enum, LevelDefault = 0) and
read-only flag. The zero value is `⟨0, false⟩`. -/
structure TxOptions where
  isolation : Nat
  readOnly : Bool
  deriving DecidableEq

/-- options.go: `options` embeds `*sql.TxOptions` and adds `AlwaysCreate`. -/
structure options where
  txOptions : TxOptions
  alwaysCreate : Bool
  deriving DecidableEq

/-- The three exported option constructors of options.go, defunctionalized:
`WithIsolationLevel`, `WithReadOnly`, `WithNewTransaction`. -/
inductive OptionSetter where
  | withIsolationLevel (level : Nat)
  | withReadOnly (readOnly : Bool)
  | withNewTransaction
  deriving DecidableEq

/-- The body of each option closure in options.go: mutate one field of the
draft `options` value. -/
def applySetter (opts : options) : OptionSetter → options
  | OptionSetter.withIsolationLevel l =>
      { opts with txOptions := { opts.txOptions with isolation := l } }
  | OptionSetter.withReadOnly b =>
      { opts with txOptions := { opts.txOptions with readOnly := b } }
  | OptionSetter.withNewTransaction =>
      { opts with alwaysCreate := true }

/-- options.go `newOptions`: start from the zero draft
`&options{TxOptions: &sql.TxOptions{}}` and apply the setters in order. -/
def newOptions (setters : List OptionSetter) : options :=
  List.foldl applySetter ⟨⟨0, false⟩, false⟩ setters

/-- The executor abstraction: the connection pool (`*sql.DB` or the
`defaultDatabase` wrapping it — neither implements `Transactor`) or a live
transaction (`*sql.Tx`), identified by a numeric id. -/
inductive Executor where
  | pool
  | tx (txId : Nat)
  deriving DecidableEq

/-- The runtime type assertion `executor.(Transactor)` of transaction.go
line 97: only a transaction handle has Commit/Rollback. -/
def isTransactor : Executor → Bool
  | Executor.tx _ => true
  | Executor.pool => false

/-- The shapes of Go contexts the library manipulates:
`background` — any plain context carrying no dbx value;
`withCtxKeyValue parent v` — `context.WithValue(parent, ctxKey{}, v)` as
produced by `WithContext` (context.go line 204);
`dbxContext parent executor` — a `defaultContext` value (context.go lines
17-20), the sole implementation of the dbx `Context` interface, viewed as a
Go context. -/
inductive GoContext where
  | background
  | withCtxKeyValue (parent : GoContext) (value : GoContext)
  | dbxContext (parent : GoContext) (executor : Executor)
  deriving DecidableEq

/-- context.go `Is`: the type assertion `ctx.(Context)` — true exactly when
the value is a `defaultContext`. -/
def Is : GoContext → Bool
  | GoContext.dbxContext _ _ => true
  | _ => false

/-- `ctx.Value(ctxKey{})`: a plain root context holds nothing; a
`WithValue` wrapper for `ctxKey{}` returns its stored value (the outermost
wrapper wins, as in Go); a `defaultContext` delegates to its parent
(context.go lines 227-229). -/
def valueCtxKey : GoContext → Option GoContext
  | GoContext.background => none
  | GoContext.withCtxKeyValue _ v => some v
  | GoContext.dbxContext parent _ => valueCtxKey parent

/-- context.go lines 174-184 `FromContext`: first the direct type
assertion, then the keyed lookup (whose result is itself type-asserted),
else nil. -/
def FromContext (ctx : GoContext) : Option GoContext :=
  if Is ctx then some ctx
  else
    match valueCtxKey ctx with
    | some v => if Is v then some v else none
    | none => none

/-- context.go lines 203-205 `WithContext`: embed a dbx Context as the
value for `ctxKey{}`. -/
def WithContext (ctx : GoContext) (dbCtx : GoContext) : GoContext :=
  GoContext.withCtxKeyValue ctx dbCtx

/-- context.go lines 86-91 `NewContext`: build a fresh carrier. -/
def NewContext (parent : GoContext) (exec : Executor) : GoContext :=
  GoContext.dbxContext parent exec

/-- context.go lines 136-154 `NewContextFrom`, specialized to the default
`Database` as creator (its `Context` method wraps the pool executor):
reuse the extracted carrier when present, else create one over the pool. -/
def NewContextFrom (ctx : GoContext) : GoContext :=
  match FromContext ctx with
  | some found => found
  | none => NewContext ctx Executor.pool

/-- `Context.Executor()` (context.go lines 234-236). Only ever applied to
carriers (`dbxContext`); the value on other shapes is immaterial. -/
def executorOf : GoContext → Executor
  | GoContext.dbxContext _ e => e
  | _ => Executor.pool

deriving instance DecidableEq for Except

/-- One observable call made by the orchestrator on its collaborators:
a `BeginTx` call (with the options passed and the returned transaction id
or error), the invocation of the caller-supplied operation (with the
executor exposed by the carrier it receives), a `Commit` call, or a
`Rollback` call (whose result the orchestrator discards). -/
inductive Event where
  | beginCall (opts : TxOptions) (result : Except Nat Nat)
  | opCall (exec : Executor)
  | commitCall (txId : Nat) (result : Except Nat Unit)
  | rollbackCall (txId : Nat) (result : Except Nat Unit)
  deriving DecidableEq

/-- The instrumentation state threaded through a run: the trace of calls
made so far and the number of `BeginTx` calls issued (used to index the
environment's answers). -/
structure World where
  events : List Event
  beginCalls : Nat
  deriving DecidableEq

/-- The environment: outcomes of the external calls. `beginTx` is indexed
by the running count of begin calls (so successive begins can differ) and
receives the `sql.TxOptions` passed; `commit` and `rollback` are indexed
by transaction id. -/
structure Env where
  beginTx : Nat → TxOptions → Except Nat Nat
  commit : Nat → Except Nat Unit
  rollback : Nat → Except Nat Unit

/-- `OperationWithResult[T]`: the caller-supplied operation, receiving the
carrier and (for nesting) the world, returning Go's `(T, error)` pair and
the updated world. -/
def OperationWithResult (T : Type) : Type :=
  GoContext → World → (T × Option Nat) × World

/-- transaction.go lines 85-137 `transactionWithInternal`:
1. build the options;
2. unless `AlwaysCreate`, resolve a carrier via `NewContextFrom` and adopt
   its executor when the `Transactor` assertion succeeds (`createdTx`
   stays false and the resolved carrier is the one passed to `op`);
3. otherwise call `beginner.BeginTx(ctx, opts.TxOptions)`; on error return
   the zero value with that error; on success build a fresh carrier
   `NewContext(ctx, tx)` over the original context (`createdTx = true`);
4. run `op`; on operation error roll back when `createdTx` (discarding the
   rollback's own result) and return the zero value with the operation's
   error; on success commit when `createdTx`, returning the zero value
   with the commit error when commit fails, else the operation's result. -/
def transactionWithInternal {T : Type} [Inhabited T] (env : Env) (ctx : GoContext)
    (op : OperationWithResult T) (setters : List OptionSetter) (w0 : World) :
    (T × Option Nat) × World :=
  let opts := newOptions setters
  let detected : Option (Nat × GoContext) :=
    if opts.alwaysCreate then none
    else
      let dbCtx := NewContextFrom ctx
      match executorOf dbCtx with
      | Executor.tx i => some (i, dbCtx)
      | Executor.pool => none
  let started : Except (Nat × World) (Nat × Bool × GoContext × World) :=
    match detected with
    | some (i, dbCtx) => Except.ok (i, false, dbCtx, w0)
    | none =>
        let res := env.beginTx w0.beginCalls opts.txOptions
        let w1 : World :=
          ⟨w0.events ++ [Event.beginCall opts.txOptions res], w0.beginCalls + 1⟩
        match res with
        | Except.error e => Except.error (e, w1)
        | Except.ok i => Except.ok (i, true, NewContext ctx (Executor.tx i), w1)
  match started with
  | Except.error (e, w1) => ((default, some e), w1)
  | Except.ok (txId, createdTx, dbCtx, w1) =>
      let w2 : World := ⟨w1.events ++ [Event.opCall (executorOf dbCtx)], w1.beginCalls⟩
      let r := op dbCtx w2
      match r.1.2 with
      | some e =>
          if createdTx then
            ((default, some e),
              ⟨r.2.events ++ [Event.rollbackCall txId (env.rollback txId)], r.2.beginCalls⟩)
          else
            ((default, some e), r.2)
      | none =>
          if createdTx then
            match env.commit txId with
            | Except.error e =>
                ((default, some e),
                  ⟨r.2.events ++ [Event.commitCall txId (Except.error e)], r.2.beginCalls⟩)
            | Except.ok u =>
                ((r.1.1, none),
                  ⟨r.2.events ++ [Event.commitCall txId (Except.ok u)], r.2.beginCalls⟩)
          else
            ((r.1.1, none), r.2)

/-- transaction.go lines 61-63 `TransactionWithResult`: delegates to the
internal routine. -/
def TransactionWithResult {T : Type} [Inhabited T] (env : Env) (ctx : GoContext)
    (op : OperationWithResult T) (setters : List OptionSetter) (w : World) :
    (T × Option Nat) × World :=
  transactionWithInternal env ctx op setters w

/-- transaction.go lines 33-39 `Transaction`: wraps the operation to return
`(nil, op(ctx))` and drops the value. -/
def Transaction (env : Env) (ctx : GoContext)
    (op : GoContext → World → Option Nat × World)
    (setters : List OptionSetter) (w : World) : Option Nat × World :=
  let res := transactionWithInternal env ctx
      (fun c w1 =>
        let r := op c w1
        ((Unit.unit, r.1), r.2))
      setters w
  (res.1.2, res.2)

/-- An operation that touches nothing and returns a fixed `(T, error)`
pair — the shape of an operation that only issues statements. -/
def pureOp {T : Type} (out : T) (err : Option Nat) : OperationWithResult T :=
  fun _ w => ((out, err), w)

/-- Depth-`n` nesting: at depth 0 run the base operation; at depth `n+1`
call the orchestrator again (no options) on the context received from the
enclosing call. -/
def nestedOp (env : Env) {T : Type} [Inhabited T] (base : OperationWithResult T) :
    Nat → OperationWithResult T
  | 0 => base
  | Nat.succ n => fun c w => transactionWithInternal env c (nestedOp env base n) [] w

/-- Whether an event is a `BeginTx` call. -/
def isBegin : Event → Bool
  | Event.beginCall _ _ => true
  | _ => false

/-- Whether an event is a `Commit` call. -/
def isCommit : Event → Bool
  | Event.commitCall _ _ => true
  | _ => false

/-- Whether an event is a `Rollback` call. -/
def isRollback : Event → Bool
  | Event.rollbackCall _ _ => true
  | _ => false

/-- Number of `BeginTx` calls recorded in a trace. -/
def countBegins (es : List Event) : Nat := (es.filter isBegin).length

/-- Number of `Commit` calls recorded in a trace. -/
def countCommits (es : List Event) : Nat := (es.filter isCommit).length

/-- Number of `Rollback` calls recorded in a trace. -/
def countRollbacks (es : List Event) : Nat := (es.filter isRollback).length

/-- Whether a setter writes the isolation-level field. -/
def setsIsolation : OptionSetter → Bool
  | OptionSetter.withIsolationLevel _ => true
  | _ => false

/-- Whether a setter writes the read-only field. -/
def setsReadOnly : OptionSetter → Bool
  | OptionSetter.withReadOnly _ => true
  | _ => false

/-- Whether a setter writes the force-new (`AlwaysCreate`) field. -/
def setsAlwaysCreate : OptionSetter → Bool
  | OptionSetter.withNewTransaction => true
  | _ => false

/-- A carrier value passes the direct type assertion of `FromContext`, so it
is extracted as itself. -/
theorem fromContext_carrier (p : GoContext) (e : Executor) :
    FromContext (GoContext.dbxContext p e) = some (GoContext.dbxContext p e) := by
  simp [FromContext, Is]

/-- Reuse path of `transactionWithInternal` (lines 91-103 then 120-136 with
`createdTx = false`): when force-new is off and the context yields a carrier
whose executor is a transaction, the call is exactly the operation run on
that carrier (with the operation-call event recorded): no begin, no commit,
no rollback, and an operation error replaces the result by the zero value. -/
theorem reuse_eq {T : Type} [Inhabited T] (env : Env) (ctx p : GoContext) (i : Nat)
    (op : OperationWithResult T) (setters : List OptionSetter) (w : World)
    (hs : (newOptions setters).alwaysCreate = false)
    (hc : FromContext ctx = some (GoContext.dbxContext p (Executor.tx i))) :
    transactionWithInternal env ctx op setters w =
      (let r := op (GoContext.dbxContext p (Executor.tx i))
          ⟨w.events ++ [Event.opCall (Executor.tx i)], w.beginCalls⟩
       match r.1.2 with
       | some e => ((default, some e), r.2)
       | none => ((r.1.1, none), r.2)) := by
  simp only [transactionWithInternal, NewContextFrom, hs, hc, executorOf, Bool.false_eq_true,
    if_false]

/-- Reuse path stated via the resolved carrier, without naming its parent. -/
theorem reuse_eq_general {T : Type} [Inhabited T] (env : Env) (ctx : GoContext) (i : Nat)
    (op : OperationWithResult T) (setters : List OptionSetter) (w : World)
    (hs : (newOptions setters).alwaysCreate = false)
    (hx : executorOf (NewContextFrom ctx) = Executor.tx i) :
    transactionWithInternal env ctx op setters w =
      (let r := op (NewContextFrom ctx)
          ⟨w.events ++ [Event.opCall (Executor.tx i)], w.beginCalls⟩
       match r.1.2 with
       | some e => ((default, some e), r.2)
       | none => ((r.1.1, none), r.2)) := by
  simp only [transactionWithInternal, hs, hx, Bool.false_eq_true, if_false]

/-- Create path of `transactionWithInternal` (lines 105-136 with
`createdTx = true`), when `BeginTx` succeeds: one begin event, the
operation run on a fresh carrier over the original context exposing the new
transaction, then rollback on operation error (result discarded, zero value
plus the operation's error returned) or commit on success (commit error
replacing the result by the zero value). -/
theorem create_eq {T : Type} [Inhabited T] (env : Env) (ctx : GoContext)
    (op : OperationWithResult T) (setters : List OptionSetter) (w : World) (i : Nat)
    (hno : (newOptions setters).alwaysCreate = true ∨
           isTransactor (executorOf (NewContextFrom ctx)) = false)
    (hb : env.beginTx w.beginCalls (newOptions setters).txOptions = Except.ok i) :
    transactionWithInternal env ctx op setters w =
      (let r := op (GoContext.dbxContext ctx (Executor.tx i))
          ⟨w.events ++ [Event.beginCall (newOptions setters).txOptions (Except.ok i),
             Event.opCall (Executor.tx i)], w.beginCalls + 1⟩
       match r.1.2 with
       | some e =>
           ((default, some e),
             ⟨r.2.events ++ [Event.rollbackCall i (env.rollback i)], r.2.beginCalls⟩)
       | none =>
           match env.commit i with
           | Except.error e =>
               ((default, some e),
                 ⟨r.2.events ++ [Event.commitCall i (Except.error e)], r.2.beginCalls⟩)
           | Except.ok u =>
               ((r.1.1, none),
                 ⟨r.2.events ++ [Event.commitCall i (Except.ok u)], r.2.beginCalls⟩)) := by
  rcases hno with hno | hno
  · simp [transactionWithInternal, NewContext, executorOf, hno, hb, List.append_assoc]
  · rcases h : (newOptions setters).alwaysCreate with _ | _
    · cases hx : executorOf (NewContextFrom ctx) with
      | pool =>
          simp only [transactionWithInternal, h, hx, hb, Bool.false_eq_true, if_false]
          simp [executorOf, NewContext, List.append_assoc]
      | tx j => rw [hx] at hno; simp [isTransactor] at hno
    · simp [transactionWithInternal, NewContext, executorOf, h, hb, List.append_assoc]

/-- Create path when `BeginTx` fails (lines 110-114): the zero value and
the begin error are returned at once; the operation is never invoked and no
commit or rollback happens. -/
theorem beginFail_eq {T : Type} [Inhabited T] (env : Env) (ctx : GoContext)
    (op : OperationWithResult T) (setters : List OptionSetter) (w : World) (e : Nat)
    (hno : (newOptions setters).alwaysCreate = true ∨
           isTransactor (executorOf (NewContextFrom ctx)) = false)
    (hb : env.beginTx w.beginCalls (newOptions setters).txOptions = Except.error e) :
    transactionWithInternal env ctx op setters w =
      ((default, some e),
        ⟨w.events ++ [Event.beginCall (newOptions setters).txOptions (Except.error e)],
          w.beginCalls + 1⟩) := by
  rcases hno with hno | hno
  · simp [transactionWithInternal, hno, hb]
  · rcases h : (newOptions setters).alwaysCreate with _ | _
    · cases hx : executorOf (NewContextFrom ctx) with
      | pool =>
          simp only [transactionWithInternal, h, hx, hb, Bool.false_eq_true, if_false]
      | tx j => rw [hx] at hno; simp [isTransactor] at hno
    · simp [transactionWithInternal, h, hb]

/-- Nested reuse, successful base: each nesting level over a transaction
carrier adds exactly one operation-call event — no begin, commit or
rollback — and hands the base result through unchanged. -/
theorem nested_reuse_ok {T : Type} [Inhabited T] (env : Env) (i : Nat) (t : T) (n : Nat) :
    ∀ (p : GoContext) (w : World),
      nestedOp env (pureOp t none) n (GoContext.dbxContext p (Executor.tx i)) w =
        ((t, none),
          ⟨w.events ++ List.replicate n (Event.opCall (Executor.tx i)), w.beginCalls⟩) := by
  induction n with
  | zero => intro p w; simp [nestedOp, pureOp]
  | succ n ih =>
      intro p w
      simp only [nestedOp]
      rw [reuse_eq env (GoContext.dbxContext p (Executor.tx i)) p i
        (nestedOp env (pureOp t none) n) [] w rfl (fromContext_carrier p (Executor.tx i))]
      simp [ih, List.replicate_succ]

/-- Nested reuse, failing base: each nesting level adds exactly one
operation-call event and passes the base error through unchanged. -/
theorem nested_reuse_err {T : Type} [Inhabited T] (env : Env) (i e : Nat) (t : T) (n : Nat) :
    ∀ (p : GoContext) (w : World),
      nestedOp env (pureOp t (some e)) n (GoContext.dbxContext p (Executor.tx i)) w =
        ((if n = 0 then t else default, some e),
          ⟨w.events ++ List.replicate n (Event.opCall (Executor.tx i)), w.beginCalls⟩) := by
  induction n with
  | zero => intro p w; simp [nestedOp, pureOp]
  | succ n ih =>
      intro p w
      simp only [nestedOp]
      rw [reuse_eq env (GoContext.dbxContext p (Executor.tx i)) p i
        (nestedOp env (pureOp t (some e)) n) [] w rfl (fromContext_carrier p (Executor.tx i))]
      simp [ih, List.replicate_succ]

/-- A run of operation-call events contains no begin, commit or rollback. -/
theorem counts_replicate_opCall (n : Nat) (x : Executor) :
    countBegins (List.replicate n (Event.opCall x)) = 0 ∧
    countCommits (List.replicate n (Event.opCall x)) = 0 ∧
    countRollbacks (List.replicate n (Event.opCall x)) = 0 := by
  induction n with
  | zero => exact ⟨rfl, rfl, rfl⟩
  | succ n ih =>
      simp only [countBegins, countCommits, countRollbacks, List.replicate_succ,
        List.filter_cons, isBegin, isCommit, isRollback] at ih ⊢
      simpa using ih

/-- Call counts of a begin-ops-commit trace. -/
theorem delta_counts_commit (i N : Nat) (o : TxOptions) (r : Except Nat Nat)
    (u : Except Nat Unit) :
    countBegins ([Event.beginCall o r] ++
        List.replicate N (Event.opCall (Executor.tx i)) ++ [Event.commitCall i u]) = 1 ∧
    countCommits ([Event.beginCall o r] ++
        List.replicate N (Event.opCall (Executor.tx i)) ++ [Event.commitCall i u]) = 1 ∧
    countRollbacks ([Event.beginCall o r] ++
        List.replicate N (Event.opCall (Executor.tx i)) ++ [Event.commitCall i u]) = 0 := by
  obtain ⟨h1, h2, h3⟩ := counts_replicate_opCall N (Executor.tx i)
  simp [countBegins, countCommits, countRollbacks, List.filter_append, isBegin, isCommit,
    isRollback] at h1 h2 h3 ⊢

/-- Call counts of a begin-ops-rollback trace. -/
theorem delta_counts_rollback (i N : Nat) (o : TxOptions) (r : Except Nat Nat)
    (u : Except Nat Unit) :
    countBegins ([Event.beginCall o r] ++
        List.replicate N (Event.opCall (Executor.tx i)) ++ [Event.rollbackCall i u]) = 1 ∧
    countCommits ([Event.beginCall o r] ++
        List.replicate N (Event.opCall (Executor.tx i)) ++ [Event.rollbackCall i u]) = 0 ∧
    countRollbacks ([Event.beginCall o r] ++
        List.replicate N (Event.opCall (Executor.tx i)) ++ [Event.rollbackCall i u]) = 1 := by
  obtain ⟨h1, h2, h3⟩ := counts_replicate_opCall N (Executor.tx i)
  simp [countBegins, countCommits, countRollbacks, List.filter_append, isBegin, isCommit,
    isRollback] at h1 h2 h3 ⊢

/-- `applySetter` leaves the isolation level unchanged over a run of
setters none of which writes it. -/
theorem foldl_keeps_isolation (ys : List OptionSetter) :
    ∀ o : options, (ys.all fun s => !setsIsolation s) = true →
      (List.foldl applySetter o ys).txOptions.isolation = o.txOptions.isolation := by
  induction ys with
  | nil => intro o h; rfl
  | cons s ys ih =>
      intro o h
      rw [List.all_cons, Bool.and_eq_true] at h
      rw [List.foldl_cons, ih _ h.2]
      cases s with
      | withIsolationLevel l => simp [setsIsolation] at h
      | withReadOnly b => simp [applySetter]
      | withNewTransaction => simp [applySetter]

/-- `applySetter` leaves the read-only flag unchanged over a run of setters
none of which writes it. -/
theorem foldl_keeps_readOnly (ys : List OptionSetter) :
    ∀ o : options, (ys.all fun s => !setsReadOnly s) = true →
      (List.foldl applySetter o ys).txOptions.readOnly = o.txOptions.readOnly := by
  induction ys with
  | nil => intro o h; rfl
  | cons s ys ih =>
      intro o h
      rw [List.all_cons, Bool.and_eq_true] at h
      rw [List.foldl_cons, ih _ h.2]
      cases s with
      | withIsolationLevel l => simp [applySetter]
      | withReadOnly b => simp [setsReadOnly] at h
      | withNewTransaction => simp [applySetter]

/-- `applySetter` leaves the force-new flag unchanged over a run of setters
none of which writes it. -/
theorem foldl_keeps_alwaysCreate (ys : List OptionSetter) :
    ∀ o : options, (ys.all fun s => !setsAlwaysCreate s) = true →
      (List.foldl applySetter o ys).alwaysCreate = o.alwaysCreate := by
  induction ys with
  | nil => intro o h; rfl
  | cons s ys ih =>
      intro o h
      rw [List.all_cons, Bool.and_eq_true] at h
      rw [List.foldl_cons, ih _ h.2]
      cases s with
      | withIsolationLevel l => simp [applySetter]
      | withReadOnly b => simp [applySetter]
      | withNewTransaction => simp [setsAlwaysCreate] at h

/-- C1: without force-new, a context carrying an open transaction makes the
call pass a carrier whose executor is exactly that transaction to the
operation, with no begin, commit or rollback of its own (the run equals the
operation's run plus one operation-call event); consequently, chaining the
call to any nesting depth N ≥ 2 from a root context with no transaction
issues exactly one begin and exactly one commit (on success) or exactly one
rollback (on failure), both by the outermost owning call. -/
theorem claim_C1 (T : Type) [Inhabited T] :
    (∀ (env : Env) (ctx p : GoContext) (i : Nat) (op : OperationWithResult T)
       (setters : List OptionSetter) (w : World),
        (newOptions setters).alwaysCreate = false →
        FromContext ctx = some (GoContext.dbxContext p (Executor.tx i)) →
        transactionWithInternal env ctx op setters w =
          (let r := op (GoContext.dbxContext p (Executor.tx i))
              ⟨w.events ++ [Event.opCall (Executor.tx i)], w.beginCalls⟩
           match r.1.2 with
           | some e => ((default, some e), r.2)
           | none => ((r.1.1, none), r.2)))
    ∧
    (∀ (env : Env) (ctx : GoContext) (w : World) (i : Nat) (t : T) (N : Nat),
        2 ≤ N →
        isTransactor (executorOf (NewContextFrom ctx)) = false →
        env.beginTx w.beginCalls ⟨0, false⟩ = Except.ok i →
        env.commit i = Except.ok Unit.unit →
        transactionWithInternal env ctx (nestedOp env (pureOp t none) (N - 1)) [] w =
          ((t, none),
            ⟨w.events ++ ([Event.beginCall ⟨0, false⟩ (Except.ok i)] ++
               List.replicate N (Event.opCall (Executor.tx i)) ++
               [Event.commitCall i (Except.ok Unit.unit)]),
             w.beginCalls + 1⟩) ∧
        countBegins ([Event.beginCall ⟨0, false⟩ (Except.ok i)] ++
          List.replicate N (Event.opCall (Executor.tx i)) ++
          [Event.commitCall i (Except.ok Unit.unit)]) = 1 ∧
        countCommits ([Event.beginCall ⟨0, false⟩ (Except.ok i)] ++
          List.replicate N (Event.opCall (Executor.tx i)) ++
          [Event.commitCall i (Except.ok Unit.unit)]) = 1 ∧
        countRollbacks ([Event.beginCall ⟨0, false⟩ (Except.ok i)] ++
          List.replicate N (Event.opCall (Executor.tx i)) ++
          [Event.commitCall i (Except.ok Unit.unit)]) = 0)
    ∧
    (∀ (env : Env) (ctx : GoContext) (w : World) (i e : Nat) (t : T) (N : Nat),
        2 ≤ N →
        isTransactor (executorOf (NewContextFrom ctx)) = false →
        env.beginTx w.beginCalls ⟨0, false⟩ = Except.ok i →
        transactionWithInternal env ctx (nestedOp env (pureOp t (some e)) (N - 1)) [] w =
          ((default, some e),
            ⟨w.events ++ ([Event.beginCall ⟨0, false⟩ (Except.ok i)] ++
               List.replicate N (Event.opCall (Executor.tx i)) ++
               [Event.rollbackCall i (env.rollback i)]),
             w.beginCalls + 1⟩) ∧
        countBegins ([Event.beginCall ⟨0, false⟩ (Except.ok i)] ++
          List.replicate N (Event.opCall (Executor.tx i)) ++
          [Event.rollbackCall i (env.rollback i)]) = 1 ∧
        countCommits ([Event.beginCall ⟨0, false⟩ (Except.ok i)] ++
          List.replicate N (Event.opCall (Executor.tx i)) ++
          [Event.rollbackCall i (env.rollback i)]) = 0 ∧
        countRollbacks ([Event.beginCall ⟨0, false⟩ (Except.ok i)] ++
          List.replicate N (Event.opCall (Executor.tx i)) ++
          [Event.rollbackCall i (env.rollback i)]) = 1) := by
  refine ⟨?_, ?_, ?_⟩
  · intro env ctx p i op setters w hs hc
    exact reuse_eq env ctx p i op setters w hs hc
  · intro env ctx w i t N hN hno hb hcommit
    refine ⟨?_, (delta_counts_commit i N ⟨0, false⟩ (Except.ok i) (Except.ok Unit.unit)).1,
      (delta_counts_commit i N ⟨0, false⟩ (Except.ok i) (Except.ok Unit.unit)).2.1,
      (delta_counts_commit i N ⟨0, false⟩ (Except.ok i) (Except.ok Unit.unit)).2.2⟩
    rw [create_eq env ctx (nestedOp env (pureOp t none) (N - 1)) [] w i (Or.inr hno)
      (by simpa [newOptions] using hb)]
    have hrepl : N = (N - 1) + 1 := by omega
    simp only [newOptions, List.foldl_nil]
    rw [nested_reuse_ok env i t (N - 1) ctx
      ⟨w.events ++ [Event.beginCall ⟨0, false⟩ (Except.ok i), Event.opCall (Executor.tx i)],
        w.beginCalls + 1⟩]
    simp only [hcommit]
    rw [hrepl]
    simp [List.replicate_succ, List.append_assoc]
  · intro env ctx w i e t N hN hno hb
    refine ⟨?_, (delta_counts_rollback i N ⟨0, false⟩ (Except.ok i) (env.rollback i)).1,
      (delta_counts_rollback i N ⟨0, false⟩ (Except.ok i) (env.rollback i)).2.1,
      (delta_counts_rollback i N ⟨0, false⟩ (Except.ok i) (env.rollback i)).2.2⟩
    rw [create_eq env ctx (nestedOp env (pureOp t (some e)) (N - 1)) [] w i (Or.inr hno)
      (by simpa [newOptions] using hb)]
    have hrepl : N = (N - 1) + 1 := by omega
    simp only [newOptions, List.foldl_nil]
    rw [nested_reuse_err env i e t (N - 1) ctx
      ⟨w.events ++ [Event.beginCall ⟨0, false⟩ (Except.ok i), Event.opCall (Executor.tx i)],
        w.beginCalls + 1⟩]
    rw [hrepl]
    simp [List.replicate_succ, List.append_assoc]

/-- C1 witness: concrete instances — reuse of transaction 7 by a single
call, and a depth-2 chain from a fresh root issuing one begin, two
operation calls on transaction 1, and one commit. -/
theorem claim_C1_witness :
    (transactionWithInternal
        (⟨fun n _ => Except.ok (n + 1), fun _ => Except.ok Unit.unit,
          fun _ => Except.ok Unit.unit⟩ : Env)
        (GoContext.dbxContext GoContext.background (Executor.tx 7))
        (pureOp (3 : Nat) none) [] ⟨[], 0⟩ =
      ((3, none), ⟨[Event.opCall (Executor.tx 7)], 0⟩))
    ∧
    (transactionWithInternal
        (⟨fun n _ => Except.ok (n + 1), fun _ => Except.ok Unit.unit,
          fun _ => Except.ok Unit.unit⟩ : Env)
        GoContext.background
        (nestedOp
          (⟨fun n _ => Except.ok (n + 1), fun _ => Except.ok Unit.unit,
            fun _ => Except.ok Unit.unit⟩ : Env) (pureOp (5 : Nat) none) 1) [] ⟨[], 0⟩ =
      ((5, none),
        ⟨[Event.beginCall ⟨0, false⟩ (Except.ok 1), Event.opCall (Executor.tx 1),
           Event.opCall (Executor.tx 1), Event.commitCall 1 (Except.ok Unit.unit)], 1⟩)) := by
  constructor
  · exact (claim_C1 Nat).1
      (⟨fun n _ => Except.ok (n + 1), fun _ => Except.ok Unit.unit,
        fun _ => Except.ok Unit.unit⟩ : Env)
      (GoContext.dbxContext GoContext.background (Executor.tx 7)) GoContext.background 7
      (pureOp (3 : Nat) none) [] ⟨[], 0⟩ rfl rfl
  · exact ((claim_C1 Nat).2.1
      (⟨fun n _ => Except.ok (n + 1), fun _ => Except.ok Unit.unit,
        fun _ => Except.ok Unit.unit⟩ : Env)
      GoContext.background ⟨[], 0⟩ 1 5 2 (by decide) rfl rfl rfl).1

/-- C2: from a context with no retrievable transaction and force-new off,
one call issues exactly one begin (the begin event, with the options
built from the setters), runs the operation on a carrier exposing the new
transaction, commits exactly when the operation succeeds (surfacing the
commit's own result), and rolls back exactly when it fails. -/
theorem claim_C2 (T : Type) [Inhabited T] :
    ∀ (env : Env) (ctx : GoContext) (setters : List OptionSetter) (w : World) (i : Nat)
      (out : T) (opErr : Option Nat),
      (newOptions setters).alwaysCreate = false →
      isTransactor (executorOf (NewContextFrom ctx)) = false →
      env.beginTx w.beginCalls (newOptions setters).txOptions = Except.ok i →
      transactionWithInternal env ctx (pureOp out opErr) setters w =
        match opErr with
        | some e =>
            ((default, some e),
              ⟨w.events ++ [Event.beginCall (newOptions setters).txOptions (Except.ok i),
                 Event.opCall (Executor.tx i), Event.rollbackCall i (env.rollback i)],
               w.beginCalls + 1⟩)
        | none =>
            match env.commit i with
            | Except.error e =>
                ((default, some e),
                  ⟨w.events ++ [Event.beginCall (newOptions setters).txOptions (Except.ok i),
                     Event.opCall (Executor.tx i), Event.commitCall i (Except.error e)],
                   w.beginCalls + 1⟩)
            | Except.ok u =>
                ((out, none),
                  ⟨w.events ++ [Event.beginCall (newOptions setters).txOptions (Except.ok i),
                     Event.opCall (Executor.tx i), Event.commitCall i (Except.ok u)],
                   w.beginCalls + 1⟩) := by
  intro env ctx setters w i out opErr hs hno hb
  rw [create_eq env ctx (pureOp out opErr) setters w i (Or.inr hno) hb]
  cases opErr with
  | some e => simp [pureOp]
  | none =>
      cases hcm : env.commit i with
      | error e => simp [pureOp, hcm]
      | ok u => simp [pureOp, hcm]

/-- C2 witness: a fresh root with a failing operation — one begin, the
operation call, then exactly one rollback, with the zero value and the
operation's error returned. -/
theorem claim_C2_witness :
    transactionWithInternal
        (⟨fun n _ => Except.ok (n + 1), fun _ => Except.ok Unit.unit,
          fun _ => Except.ok Unit.unit⟩ : Env)
        GoContext.background (pureOp (0 : Nat) (some 4)) [] ⟨[], 0⟩ =
      ((0, some 4),
        ⟨[Event.beginCall ⟨0, false⟩ (Except.ok 1), Event.opCall (Executor.tx 1),
           Event.rollbackCall 1 (Except.ok Unit.unit)], 1⟩) := by
  exact claim_C2 Nat
    (⟨fun n _ => Except.ok (n + 1), fun _ => Except.ok Unit.unit,
      fun _ => Except.ok Unit.unit⟩ : Env)
    GoContext.background [] ⟨[], 0⟩ 1 0 (some 4) rfl rfl rfl

/-- C3: on operation failure, a call that created the transaction rolls it
back exactly once, discards the rollback's own result (the conclusion holds
for every value of the environment's rollback outcome) and returns the zero
value with the operation's error; a call that reused a transaction returns
the error unchanged with no commit or rollback event. -/
theorem claim_C3 (T : Type) [Inhabited T] :
    (∀ (env : Env) (ctx : GoContext) (setters : List OptionSetter) (w : World)
       (i : Nat) (out : T) (e : Nat),
        ((newOptions setters).alwaysCreate = true ∨
          isTransactor (executorOf (NewContextFrom ctx)) = false) →
        env.beginTx w.beginCalls (newOptions setters).txOptions = Except.ok i →
        transactionWithInternal env ctx (pureOp out (some e)) setters w =
          ((default, some e),
            ⟨w.events ++ [Event.beginCall (newOptions setters).txOptions (Except.ok i),
               Event.opCall (Executor.tx i), Event.rollbackCall i (env.rollback i)],
             w.beginCalls + 1⟩))
    ∧
    (∀ (env : Env) (ctx p : GoContext) (i : Nat) (setters : List OptionSetter) (w : World)
       (out : T) (e : Nat),
        (newOptions setters).alwaysCreate = false →
        FromContext ctx = some (GoContext.dbxContext p (Executor.tx i)) →
        transactionWithInternal env ctx (pureOp out (some e)) setters w =
          ((default, some e),
            ⟨w.events ++ [Event.opCall (Executor.tx i)], w.beginCalls⟩)) := by
  constructor
  · intro env ctx setters w i out e hno hb
    rw [create_eq env ctx (pureOp out (some e)) setters w i hno hb]
    simp [pureOp]
  · intro env ctx p i setters w out e hs hc
    rw [reuse_eq env ctx p i (pureOp out (some e)) setters w hs hc]
    simp [pureOp]

/-- C3 witness: created case with a rollback that itself fails (error 9) —
the operation's error 4 still propagates; and reuse case returning error 4
with no rollback event. -/
theorem claim_C3_witness :
    (transactionWithInternal
        (⟨fun n _ => Except.ok (n + 1), fun _ => Except.ok Unit.unit,
          fun _ => Except.error 9⟩ : Env)
        GoContext.background (pureOp (0 : Nat) (some 4)) [] ⟨[], 0⟩ =
      ((0, some 4),
        ⟨[Event.beginCall ⟨0, false⟩ (Except.ok 1), Event.opCall (Executor.tx 1),
           Event.rollbackCall 1 (Except.error 9)], 1⟩))
    ∧
    (transactionWithInternal
        (⟨fun n _ => Except.ok (n + 1), fun _ => Except.ok Unit.unit,
          fun _ => Except.error 9⟩ : Env)
        (GoContext.dbxContext GoContext.background (Executor.tx 7))
        (pureOp (0 : Nat) (some 4)) [] ⟨[], 0⟩ =
      ((0, some 4), ⟨[Event.opCall (Executor.tx 7)], 0⟩)) := by
  constructor
  · exact (claim_C3 Nat).1
      (⟨fun n _ => Except.ok (n + 1), fun _ => Except.ok Unit.unit,
        fun _ => Except.error 9⟩ : Env)
      GoContext.background [] ⟨[], 0⟩ 1 0 4 (Or.inr rfl) rfl
  · exact (claim_C3 Nat).2
      (⟨fun n _ => Except.ok (n + 1), fun _ => Except.ok Unit.unit,
        fun _ => Except.error 9⟩ : Env)
      (GoContext.dbxContext GoContext.background (Executor.tx 7)) GoContext.background 7 []
      ⟨[], 0⟩ 0 4 rfl rfl

/-- C4: when this call created the transaction and the operation succeeded
but commit returns error E, the call returns the zero value with E; when
the transaction was reused and the operation succeeded, the result passes
through unchanged with no commit event. -/
theorem claim_C4 (T : Type) [Inhabited T] :
    (∀ (env : Env) (ctx : GoContext) (setters : List OptionSetter) (w : World)
       (i : Nat) (out : T) (E : Nat),
        ((newOptions setters).alwaysCreate = true ∨
          isTransactor (executorOf (NewContextFrom ctx)) = false) →
        env.beginTx w.beginCalls (newOptions setters).txOptions = Except.ok i →
        env.commit i = Except.error E →
        transactionWithInternal env ctx (pureOp out none) setters w =
          ((default, some E),
            ⟨w.events ++ [Event.beginCall (newOptions setters).txOptions (Except.ok i),
               Event.opCall (Executor.tx i), Event.commitCall i (Except.error E)],
             w.beginCalls + 1⟩))
    ∧
    (∀ (env : Env) (ctx p : GoContext) (i : Nat) (setters : List OptionSetter) (w : World)
       (out : T),
        (newOptions setters).alwaysCreate = false →
        FromContext ctx = some (GoContext.dbxContext p (Executor.tx i)) →
        transactionWithInternal env ctx (pureOp out none) setters w =
          ((out, none),
            ⟨w.events ++ [Event.opCall (Executor.tx i)], w.beginCalls⟩)) := by
  constructor
  · intro env ctx setters w i out E hno hb hcm
    rw [create_eq env ctx (pureOp out none) setters w i hno hb]
    simp [pureOp, hcm]
  · intro env ctx p i setters w out hs hc
    rw [reuse_eq env ctx p i (pureOp out none) setters w hs hc]
    simp [pureOp]

/-- C4 witness: commit failure 9 after a successful operation returning 5
yields the zero value and error 9; reuse case passes 5 through with no
commit. -/
theorem claim_C4_witness :
    (transactionWithInternal
        (⟨fun n _ => Except.ok (n + 1), fun _ => Except.error 9,
          fun _ => Except.ok Unit.unit⟩ : Env)
        GoContext.background (pureOp (5 : Nat) none) [] ⟨[], 0⟩ =
      ((0, some 9),
        ⟨[Event.beginCall ⟨0, false⟩ (Except.ok 1), Event.opCall (Executor.tx 1),
           Event.commitCall 1 (Except.error 9)], 1⟩))
    ∧
    (transactionWithInternal
        (⟨fun n _ => Except.ok (n + 1), fun _ => Except.error 9,
          fun _ => Except.ok Unit.unit⟩ : Env)
        (GoContext.dbxContext GoContext.background (Executor.tx 7))
        (pureOp (5 : Nat) none) [] ⟨[], 0⟩ =
      ((5, none), ⟨[Event.opCall (Executor.tx 7)], 0⟩)) := by
  constructor
  · exact (claim_C4 Nat).1
      (⟨fun n _ => Except.ok (n + 1), fun _ => Except.error 9,
        fun _ => Except.ok Unit.unit⟩ : Env)
      GoContext.background [] ⟨[], 0⟩ 1 5 9 (Or.inr rfl) rfl rfl
  · exact (claim_C4 Nat).2
      (⟨fun n _ => Except.ok (n + 1), fun _ => Except.error 9,
        fun _ => Except.ok Unit.unit⟩ : Env)
      (GoContext.dbxContext GoContext.background (Executor.tx 7)) GoContext.background 7 []
      ⟨[], 0⟩ 5 rfl rfl

/-- C5: when a new transaction must be started and the begin call fails
with E, the call returns the zero value with E at once: the conclusion
holds for every operation (which is therefore never invoked) and the trace
gains only the failed begin event — no rollback, no commit. -/
theorem claim_C5 (T : Type) [Inhabited T] :
    ∀ (env : Env) (ctx : GoContext) (op : OperationWithResult T)
      (setters : List OptionSetter) (w : World) (E : Nat),
      ((newOptions setters).alwaysCreate = true ∨
        isTransactor (executorOf (NewContextFrom ctx)) = false) →
      env.beginTx w.beginCalls (newOptions setters).txOptions = Except.error E →
      transactionWithInternal env ctx op setters w =
        ((default, some E),
          ⟨w.events ++ [Event.beginCall (newOptions setters).txOptions (Except.error E)],
            w.beginCalls + 1⟩) := by
  intro env ctx op setters w E hno hb
  exact beginFail_eq env ctx op setters w E hno hb

/-- C5 witness: begin fails with error 7 — the run records only the failed
begin and returns the zero value with 7. -/
theorem claim_C5_witness :
    transactionWithInternal
        (⟨fun _ _ => Except.error 7, fun _ => Except.ok Unit.unit,
          fun _ => Except.ok Unit.unit⟩ : Env)
        GoContext.background (pureOp (5 : Nat) none) [] ⟨[], 0⟩ =
      ((0, some 7), ⟨[Event.beginCall ⟨0, false⟩ (Except.error 7)], 1⟩) := by
  exact claim_C5 Nat
    (⟨fun _ _ => Except.error 7, fun _ => Except.ok Unit.unit,
      fun _ => Except.ok Unit.unit⟩ : Env)
    GoContext.background (pureOp (5 : Nat) none) [] ⟨[], 0⟩ 7 (Or.inr rfl) rfl

/-- C6: on every failure path of the orchestrator — for every result type,
environment, context, operation, option list and starting state — a
non-nil returned error comes with exactly the zero value of T as the value
component, never a partial operation result. -/
theorem claim_C6 (T : Type) [Inhabited T] :
    ∀ (env : Env) (ctx : GoContext) (op : OperationWithResult T)
      (setters : List OptionSetter) (w : World) (e : Nat),
      (transactionWithInternal env ctx op setters w).1.2 = some e →
      (transactionWithInternal env ctx op setters w).1.1 = default := by
  intro env ctx op setters w e h
  rcases ha : (newOptions setters).alwaysCreate with _ | _
  · rcases hx : executorOf (NewContextFrom ctx) with _ | i
    · rcases hb : env.beginTx w.beginCalls (newOptions setters).txOptions with E | i
      · rw [beginFail_eq env ctx op setters w E (Or.inr (by simp [isTransactor, hx])) hb]
      · rw [create_eq env ctx op setters w i (Or.inr (by simp [isTransactor, hx])) hb] at h ⊢
        simp only at h ⊢
        rcases hop : (op (GoContext.dbxContext ctx (Executor.tx i))
            ⟨w.events ++ [Event.beginCall (newOptions setters).txOptions (Except.ok i),
               Event.opCall (Executor.tx i)], w.beginCalls + 1⟩).1.2 with _ | e2
        · rcases hcm : env.commit i with E | u
          · rfl
          · rw [hop, hcm] at h; simp at h
        · rfl
    · rw [reuse_eq_general env ctx i op setters w ha hx] at h ⊢
      simp only at h ⊢
      rcases hop : (op (NewContextFrom ctx)
          ⟨w.events ++ [Event.opCall (Executor.tx i)], w.beginCalls⟩).1.2 with _ | e2
      · rw [hop] at h; simp at h
      · rfl
  · rcases hb : env.beginTx w.beginCalls (newOptions setters).txOptions with E | i
    · rw [beginFail_eq env ctx op setters w E (Or.inl ha) hb]
    · rw [create_eq env ctx op setters w i (Or.inl ha) hb] at h ⊢
      simp only at h ⊢
      rcases hop : (op (GoContext.dbxContext ctx (Executor.tx i))
          ⟨w.events ++ [Event.beginCall (newOptions setters).txOptions (Except.ok i),
             Event.opCall (Executor.tx i)], w.beginCalls + 1⟩).1.2 with _ | e2
      · rcases hcm : env.commit i with E | u
        · rfl
        · rw [hop, hcm] at h; simp at h
      · rfl

/-- C6 witness: a failing operation returning value 8 alongside error 4 —
the call still hands back the zero value 0 of Nat. -/
theorem claim_C6_witness :
    (transactionWithInternal
        (⟨fun n _ => Except.ok (n + 1), fun _ => Except.ok Unit.unit,
          fun _ => Except.ok Unit.unit⟩ : Env)
        GoContext.background (pureOp (8 : Nat) (some 4)) [] ⟨[], 0⟩).1.1 = 0 := by
  exact claim_C6 Nat
    (⟨fun n _ => Except.ok (n + 1), fun _ => Except.ok Unit.unit,
      fun _ => Except.ok Unit.unit⟩ : Env)
    GoContext.background (pureOp (8 : Nat) (some 4)) [] ⟨[], 0⟩ 4 rfl

/-- C7: a force-new call nested inside an owning call begins its own
transaction via the beginner even though a reusable transaction is in the
context, and its lifetime nests strictly inside the outer one: the trace
is outer begin, outer operation, inner begin, inner operation, inner
commit (or rollback on inner failure), outer commit (or rollback). -/
theorem claim_C7 (T : Type) [Inhabited T] :
    (∀ (env : Env) (ctx : GoContext) (w : World) (i j : Nat) (t : T),
        isTransactor (executorOf (NewContextFrom ctx)) = false →
        env.beginTx w.beginCalls ⟨0, false⟩ = Except.ok i →
        env.beginTx (w.beginCalls + 1) ⟨0, false⟩ = Except.ok j →
        env.commit j = Except.ok Unit.unit →
        env.commit i = Except.ok Unit.unit →
        transactionWithInternal env ctx
          (fun c w1 => transactionWithInternal env c (pureOp t none)
            [OptionSetter.withNewTransaction] w1)
          [] w =
          ((t, none),
            ⟨w.events ++ [Event.beginCall ⟨0, false⟩ (Except.ok i),
               Event.opCall (Executor.tx i),
               Event.beginCall ⟨0, false⟩ (Except.ok j),
               Event.opCall (Executor.tx j),
               Event.commitCall j (Except.ok Unit.unit),
               Event.commitCall i (Except.ok Unit.unit)],
             w.beginCalls + 2⟩))
    ∧
    (∀ (env : Env) (ctx : GoContext) (w : World) (i j e : Nat) (t : T),
        isTransactor (executorOf (NewContextFrom ctx)) = false →
        env.beginTx w.beginCalls ⟨0, false⟩ = Except.ok i →
        env.beginTx (w.beginCalls + 1) ⟨0, false⟩ = Except.ok j →
        transactionWithInternal env ctx
          (fun c w1 => transactionWithInternal env c (pureOp t (some e))
            [OptionSetter.withNewTransaction] w1)
          [] w =
          ((default, some e),
            ⟨w.events ++ [Event.beginCall ⟨0, false⟩ (Except.ok i),
               Event.opCall (Executor.tx i),
               Event.beginCall ⟨0, false⟩ (Except.ok j),
               Event.opCall (Executor.tx j),
               Event.rollbackCall j (env.rollback j),
               Event.rollbackCall i (env.rollback i)],
             w.beginCalls + 2⟩)) := by
  constructor
  · intro env ctx w i j t hno hbi hbj hcj hci
    have hbi2 : env.beginTx w.beginCalls (newOptions []).txOptions = Except.ok i := by
      simpa [newOptions] using hbi
    rw [create_eq env ctx _ [] w i (Or.inr hno) hbi2]
    have hbj2 : env.beginTx (w.beginCalls + 1)
        (newOptions [OptionSetter.withNewTransaction]).txOptions = Except.ok j := by
      simpa [newOptions, applySetter] using hbj
    simp only
    rw [create_eq env (GoContext.dbxContext ctx (Executor.tx i)) (pureOp t none)
      [OptionSetter.withNewTransaction]
      ⟨w.events ++ [Event.beginCall (newOptions []).txOptions (Except.ok i),
         Event.opCall (Executor.tx i)], w.beginCalls + 1⟩ j (Or.inl rfl) hbj2]
    simp [pureOp, hcj, hci, newOptions, applySetter]
  · intro env ctx w i j e t hno hbi hbj
    have hbi2 : env.beginTx w.beginCalls (newOptions []).txOptions = Except.ok i := by
      simpa [newOptions] using hbi
    rw [create_eq env ctx _ [] w i (Or.inr hno) hbi2]
    have hbj2 : env.beginTx (w.beginCalls + 1)
        (newOptions [OptionSetter.withNewTransaction]).txOptions = Except.ok j := by
      simpa [newOptions, applySetter] using hbj
    simp only
    rw [create_eq env (GoContext.dbxContext ctx (Executor.tx i)) (pureOp t (some e))
      [OptionSetter.withNewTransaction]
      ⟨w.events ++ [Event.beginCall (newOptions []).txOptions (Except.ok i),
         Event.opCall (Executor.tx i)], w.beginCalls + 1⟩ j (Or.inl rfl) hbj2]
    simp [pureOp, newOptions, applySetter]

/-- C7 witness: concrete nested force-new run — transactions 1 (outer) and
2 (inner), inner begin after outer begin, inner commit before outer
commit; and the variant whose inner operation fails, rolling back inner
then outer. -/
theorem claim_C7_witness :
    (transactionWithInternal
        (⟨fun n _ => Except.ok (n + 1), fun _ => Except.ok Unit.unit,
          fun _ => Except.ok Unit.unit⟩ : Env)
        GoContext.background
        (fun c w1 => transactionWithInternal
          (⟨fun n _ => Except.ok (n + 1), fun _ => Except.ok Unit.unit,
            fun _ => Except.ok Unit.unit⟩ : Env) c (pureOp (5 : Nat) none)
          [OptionSetter.withNewTransaction] w1)
        [] ⟨[], 0⟩ =
      ((5, none),
        ⟨[Event.beginCall ⟨0, false⟩ (Except.ok 1), Event.opCall (Executor.tx 1),
           Event.beginCall ⟨0, false⟩ (Except.ok 2), Event.opCall (Executor.tx 2),
           Event.commitCall 2 (Except.ok Unit.unit),
           Event.commitCall 1 (Except.ok Unit.unit)], 2⟩))
    ∧
    (transactionWithInternal
        (⟨fun n _ => Except.ok (n + 1), fun _ => Except.ok Unit.unit,
          fun _ => Except.ok Unit.unit⟩ : Env)
        GoContext.background
        (fun c w1 => transactionWithInternal
          (⟨fun n _ => Except.ok (n + 1), fun _ => Except.ok Unit.unit,
            fun _ => Except.ok Unit.unit⟩ : Env) c (pureOp (5 : Nat) (some 4))
          [OptionSetter.withNewTransaction] w1)
        [] ⟨[], 0⟩ =
      ((0, some 4),
        ⟨[Event.beginCall ⟨0, false⟩ (Except.ok 1), Event.opCall (Executor.tx 1),
           Event.beginCall ⟨0, false⟩ (Except.ok 2), Event.opCall (Executor.tx 2),
           Event.rollbackCall 2 (Except.ok Unit.unit),
           Event.rollbackCall 1 (Except.ok Unit.unit)], 2⟩)) := by
  constructor
  · exact (claim_C7 Nat).1
      (⟨fun n _ => Except.ok (n + 1), fun _ => Except.ok Unit.unit,
        fun _ => Except.ok Unit.unit⟩ : Env)
      GoContext.background ⟨[], 0⟩ 1 2 5 rfl rfl rfl rfl rfl
  · exact (claim_C7 Nat).2
      (⟨fun n _ => Except.ok (n + 1), fun _ => Except.ok Unit.unit,
        fun _ => Except.ok Unit.unit⟩ : Env)
      GoContext.background ⟨[], 0⟩ 1 2 4 5 rfl rfl rfl

/-- C8: embedding then extracting recovers the carrier,
`FromContext (WithContext p c) = some c`; extraction is the two-step test:
a context that itself satisfies the capability is returned directly,
otherwise the keyed value is consulted (and type-checked), and the result
is `none` — absence, not an error — when neither step succeeds. -/
theorem claim_C8 :
    (∀ (p c : GoContext), Is c = true → FromContext (WithContext p c) = some c)
    ∧ (∀ ctx : GoContext, Is ctx = true → FromContext ctx = some ctx)
    ∧ (∀ ctx v : GoContext, Is ctx = false → valueCtxKey ctx = some v → Is v = true →
        FromContext ctx = some v)
    ∧ (∀ ctx : GoContext, Is ctx = false → valueCtxKey ctx = none → FromContext ctx = none)
    ∧ (∀ ctx v : GoContext, Is ctx = false → valueCtxKey ctx = some v → Is v = false →
        FromContext ctx = none) := by
  refine ⟨?_, ?_, ?_, ?_, ?_⟩
  · intro p c hc
    cases c with
    | dbxContext pc ec => simp [FromContext, WithContext, Is, valueCtxKey]
    | background => simp [Is] at hc
    | withCtxKeyValue a b => simp [Is] at hc
  · intro ctx hc
    simp [FromContext, hc]
  · intro ctx v h1 h2 h3
    simp [FromContext, h1, h2, h3]
  · intro ctx h1 h2
    simp [FromContext, h1, h2]
  · intro ctx v h1 h2 h3
    simp [FromContext, h1, h2, h3]

/-- C8 witness: round trip of a concrete carrier through
`WithContext`/`FromContext`, direct extraction of a carrier, keyed
extraction, and absence on a bare root context. -/
theorem claim_C8_witness :
    (FromContext (WithContext GoContext.background
        (GoContext.dbxContext GoContext.background Executor.pool)) =
      some (GoContext.dbxContext GoContext.background Executor.pool))
    ∧ (FromContext (GoContext.dbxContext GoContext.background (Executor.tx 7)) =
        some (GoContext.dbxContext GoContext.background (Executor.tx 7)))
    ∧ (FromContext GoContext.background = none) := by
  refine ⟨?_, ?_, ?_⟩
  · exact claim_C8.1 GoContext.background
      (GoContext.dbxContext GoContext.background Executor.pool) rfl
  · exact claim_C8.2.1 (GoContext.dbxContext GoContext.background (Executor.tx 7)) rfl
  · exact claim_C8.2.2.2.1 GoContext.background rfl rfl

/-- C9: the option set starts from the defaults (isolation 0, read-only
false, force-new false), the setters are applied in call order to a single
draft (appending one more setter applies it to the accumulated draft), and
the last setter of a given field determines its final value. -/
theorem claim_C9 :
    (newOptions [] = ⟨⟨0, false⟩, false⟩)
    ∧ (∀ (xs : List OptionSetter) (s : OptionSetter),
        newOptions (xs ++ [s]) = applySetter (newOptions xs) s)
    ∧ (∀ (xs ys : List OptionSetter) (v : Nat),
        (ys.all fun s => !setsIsolation s) = true →
        (newOptions (xs ++ OptionSetter.withIsolationLevel v :: ys)).txOptions.isolation = v)
    ∧ (∀ (xs ys : List OptionSetter) (b : Bool),
        (ys.all fun s => !setsReadOnly s) = true →
        (newOptions (xs ++ OptionSetter.withReadOnly b :: ys)).txOptions.readOnly = b)
    ∧ (∀ (xs ys : List OptionSetter),
        (ys.all fun s => !setsAlwaysCreate s) = true →
        (newOptions (xs ++ OptionSetter.withNewTransaction :: ys)).alwaysCreate = true) := by
  refine ⟨rfl, ?_, ?_, ?_, ?_⟩
  · intro xs s
    simp [newOptions, List.foldl_append]
  · intro xs ys v h
    rw [newOptions, List.foldl_append, List.foldl_cons, foldl_keeps_isolation ys _ h]
    simp [applySetter]
  · intro xs ys b h
    rw [newOptions, List.foldl_append, List.foldl_cons, foldl_keeps_readOnly ys _ h]
    simp [applySetter]
  · intro xs ys h
    rw [newOptions, List.foldl_append, List.foldl_cons, foldl_keeps_alwaysCreate ys _ h]
    simp [applySetter]

/-- C9 witness: two isolation setters in one list — the later one (level 3)
wins over the earlier (level 1); same for read-only. -/
theorem claim_C9_witness :
    ((newOptions [OptionSetter.withIsolationLevel 1,
        OptionSetter.withIsolationLevel 3]).txOptions.isolation = 3)
    ∧ ((newOptions [OptionSetter.withReadOnly false,
        OptionSetter.withReadOnly true]).txOptions.readOnly = true)
    ∧ ((newOptions [OptionSetter.withReadOnly true,
        OptionSetter.withNewTransaction]).alwaysCreate = true) := by
  refine ⟨?_, ?_, ?_⟩
  · exact claim_C9.2.2.1 [OptionSetter.withIsolationLevel 1] [] 3 rfl
  · exact claim_C9.2.2.2.1 [OptionSetter.withReadOnly false] [] true rfl
  · exact claim_C9.2.2.2.2 [OptionSetter.withReadOnly true] [] rfl

/-- C10: the direct capability test wins over the keyed lookup — any value
that itself is a dbx Context is extracted as itself, even when a different
carrier sits embedded in its parent chain (and that embedded carrier, being
a strict subterm, is never the value returned). -/
theorem claim_C10 :
    (∀ (pc : GoContext) (ec : Executor),
        FromContext (GoContext.dbxContext pc ec) = some (GoContext.dbxContext pc ec))
    ∧ (∀ (p cEmb : GoContext) (e : Executor),
        FromContext (GoContext.dbxContext (WithContext p cEmb) e) =
          some (GoContext.dbxContext (WithContext p cEmb) e))
    ∧ (∀ (p cEmb : GoContext) (e : Executor),
        GoContext.dbxContext (WithContext p cEmb) e ≠ cEmb) := by
  refine ⟨?_, ?_, ?_⟩
  · intro pc ec; simp [FromContext, Is]
  · intro p cEmb e; simp [FromContext, Is]
  · intro p cEmb e h
    have hs := congrArg sizeOf h
    simp [WithContext, GoContext.dbxContext.sizeOf_spec,
      GoContext.withCtxKeyValue.sizeOf_spec] at hs
    omega

end Dbx
